import Mathlib

/-!
# pgmrecv: the receive loop and the APDU walk

A shallow embedding of `receiver_thread` and `on_msgv` of
`openpgm/pgm/examples/pgmrecv.c`, and the properties of the receive loop
proved over it.

Machine integers are natural numbers or integers with explicit reduction:
`guint` is taken modulo `2 ^ 32`, `gsize` modulo `2 ^ 64`, and a value stored
in an `int` is wrapped into the signed 32-bit range.
-/

namespace PgmRecv

/-! ## Data model -/

/-- Number of values of a `guint`. -/
def GUINT_RANGE : Nat := 2 ^ 32

/-- Number of values of a `gsize`. -/
def GSIZE_RANGE : Nat := 2 ^ 64

/-- The fields of `struct pgm_sk_buff_t` that `on_msgv` reads: the length of
the fragment and the session identifier it came from. The payload bytes are
not modelled, only how many of them the preview copies. -/
structure pgm_sk_buff_t where
  len : Nat
  tsi : Nat
  deriving DecidableEq, Repr

/-- One entry of the message vector, `pgm_msgv_t`: the fragments
`msgv_skb[0 .. msgv_len - 1]` of one APDU. -/
structure pgm_msgv_t where
  msgv_skb : List pgm_sk_buff_t
  deriving DecidableEq, Repr

/-- The field `msgv_len`: the number of fragments of the entry. -/
def pgm_msgv_t.msgv_len (e : pgm_msgv_t) : Nat := e.msgv_skb.length

/-- The sum of the fragment lengths of one entry, as a natural number. -/
def apduSum (e : pgm_msgv_t) : Nat := (e.msgv_skb.map (fun skb => skb.len)).sum

/-- The sum of the fragment lengths over all entries of a batch. -/
def batchSum (msgv : List pgm_msgv_t) : Nat := (msgv.map apduSum).sum

/-- The inner loop of `on_msgv`:
`for (j = 0; j < msgv[i].msgv_len; j++) apdu_len += msgv[i].msgv_skb[j]->len;`
with `apdu_len` a `gsize` that starts at zero. -/
def apdu_len_of (e : pgm_msgv_t) : Nat :=
  e.msgv_skb.foldl (fun apdu_len skb => (apdu_len + skb.len) % GSIZE_RANGE) 0

/-- `sizeof(buf)` for `char buf[2000]`. -/
def SIZEOF_BUF : Nat := 2000

/-- One `g_message` line of the walk: the index `i`, the number of bytes of
the first fragment copied into `buf` (`buflen`), the APDU length printed, the
session identifier, and whether the line is the one with `...`
(`msgv_len > 1`). -/
structure ApduLine where
  i : Nat
  buflen : Nat
  apdu_len : Nat
  tsi : Nat
  continued : Bool
  deriving DecidableEq, Repr

/-- How the walk of `on_msgv` ends: it returns a value, or it reads `msgv[i]`
at an index behind the last slot of the array it was passed, or it reads
through `msgv[i].msgv_skb[0]` in a slot that holds no fragment. The last two
are reads outside the caller's array or through a pointer to no fragment; the C
program has no defined behaviour from there on. -/
inductive WalkExit where
  | returned (value : Int)
  | past_end (i : Nat)
  | no_fragment (i : Nat)
  deriving DecidableEq, Repr

/-- What a run of `on_msgv` did: the indices `i` at which it read `msgv[i]`
(the last one is behind the array when the walk ends there),
the lines it printed, the number of completed passes through the body of the
`do ... while (len)` loop, the value of `len` it stopped with, and how it
ended. -/
structure Walk where
  reads : List Nat
  lines : List ApduLine
  iterations : Nat
  len : Nat
  exit : WalkExit
  deriving DecidableEq, Repr

/-- The statement `len -= apdu_len;` with `len` a `guint` and `apdu_len` a
`gsize`: the subtraction is done in `gsize` and the result stored back into the
`guint`. -/
def len_sub (len apdu_len : Nat) : Nat :=
  ((len + GSIZE_RANGE - apdu_len) % GSIZE_RANGE) % GUINT_RANGE

/-- The `do { ... } while (len);` loop of `on_msgv`. The function is not told
how many entries the transport returned: it reads slot after slot of the array
it is passed until `len` is zero. The list is that array from index `i` on, all
of its slots: the entries of the batch and, behind them, whatever the other
slots hold (`receiver_thread` passes the same `msgv[20]` in every pass, so they
hold entries of earlier batches). The counter `i` is a `guint`; it cannot wrap
before the walk has left an array of fewer than `2 ^ 32` slots. -/
def on_msgv_loop : List pgm_msgv_t → Nat → Nat → Walk
  | [], i, len =>
    { reads := [i], lines := [], iterations := 0, len := len, exit := .past_end i }
  | e :: rest, i, len =>
    match e.msgv_skb.head? with
    | none =>
      { reads := [i], lines := [], iterations := 0, len := len, exit := .no_fragment i }
    | some pskb =>
      let apdu_len := apdu_len_of e
      let buflen := min (SIZEOF_BUF - 1) pskb.len
      let line : ApduLine :=
        { i := i, buflen := buflen, apdu_len := apdu_len, tsi := pskb.tsi,
          continued := decide (e.msgv_len > 1) }
      let len1 := len_sub len apdu_len
      if len1 ≠ 0 then
        let w := on_msgv_loop rest (i + 1) len1
        { w with reads := i :: w.reads, lines := line :: w.lines,
                 iterations := w.iterations + 1 }
      else
        { reads := [i], lines := [line], iterations := 1, len := len1,
          exit := .returned 0 }

/-- The function `on_msgv (msgv, len, user_data)`, with `msgv` the slots of the
caller's array: the walk starts at `i = 0` and returns 0 when `len` has reached
zero. The opening message `(len bytes)`
prints the argument as it is and is not part of the record. -/
def on_msgv (msgv : List pgm_msgv_t) (len : Nat) : Walk :=
  on_msgv_loop msgv 0 len

/-- A batch written as lists of fragment lengths. -/
def batchOf (lens : List (List Nat)) : List pgm_msgv_t :=
  lens.map (fun fs => { msgv_skb := fs.map (fun n => { len := n, tsi := 0 }) })

/-! ## The receive loop -/

/-- The status codes of `PGMIOStatus` that `receiver_thread` names; every other
enumerator of the type is `other`. -/
inductive PGMIOStatus where
  | PGM_IO_STATUS_ERROR
  | PGM_IO_STATUS_NORMAL
  | PGM_IO_STATUS_TIMER_PENDING
  | PGM_IO_STATUS_RATE_LIMITED
  | PGM_IO_STATUS_WOULD_BLOCK
  | other (code : Nat)
  deriving DecidableEq, Repr

open PGMIOStatus

/-- The two fields of `struct timeval`. -/
structure timeval where
  tv_sec : Int
  tv_usec : Int
  deriving DecidableEq, Repr

/-- The three ways `receiver_thread` is compiled: with `CONFIG_HAVE_EPOLL`, with
`CONFIG_HAVE_POLL`, or with neither (`select`). -/
inductive Backend where
  | epoll
  | poll
  | select
  deriving DecidableEq, Repr

/-- A value stored into an `int`: wrapped into the signed 32-bit range. -/
def to_int (x : Int) : Int := (x + 2 ^ 31) % 2 ^ 32 - 2 ^ 31

/-- The expression
`PGM_IO_STATUS_WOULD_BLOCK == status ? -1 : ((tv.tv_sec * 1000) + (tv.tv_usec / 1000))`
assigned to `int timeout` in the epoll and the poll build. The division of C
truncates towards zero. -/
def timeout_ms (status : PGMIOStatus) (tv : timeval) : Int :=
  if PGM_IO_STATUS_WOULD_BLOCK = status then -1
  else to_int ((tv.tv_sec * 1000) + Int.tdiv tv.tv_usec 1000)

/-- The system call the thread blocks in, with the timeout argument it is
given: `epoll_wait (efd, events, 1, timeout)`, `poll (fds, 1 + n_fds, timeout)`
or `select (n_fds, &readfds, NULL, NULL, timeout)`, where a `select` timeout of
`none` is the `NULL` pointer. The descriptors waited on are not modelled. -/
inductive WaitCall where
  | epoll_wait (timeout : Int)
  | poll (timeout : Int)
  | select (timeout : Option timeval)
  deriving DecidableEq, Repr

/-- The code at the label `block:` of `receiver_thread`, in each build. -/
def readiness_wait (backend : Backend) (status : PGMIOStatus) (tv : timeval) : WaitCall :=
  match backend with
  | .epoll => .epoll_wait (timeout_ms status tv)
  | .poll => .poll (timeout_ms status tv)
  | .select => .select (if PGM_IO_STATUS_RATE_LIMITED = status then some tv else none)

/-- Whether the system call waits without a timeout: a negative timeout for
`epoll_wait` and `poll`, the `NULL` pointer for `select`. -/
def WaitCall.indefinite : WaitCall → Bool
  | .epoll_wait timeout => decide (timeout < 0)
  | .poll timeout => decide (timeout < 0)
  | .select timeout => timeout.isNone

/-- The longest time the system call may block, in microseconds, `none` when
it waits without a timeout. -/
def WaitCall.maxWait : WaitCall → Option Int
  | .epoll_wait timeout => if timeout < 0 then none else some (timeout * 1000)
  | .poll timeout => if timeout < 0 then none else some (timeout * 1000)
  | .select none => none
  | .select (some tv) => some (tv.tv_sec * 1000000 + tv.tv_usec)

/-- What the thread does, in program order. `g_message_wait sec usec` is one of
the two `"wait on fd or ..."` messages with the two numbers it prints;
`test_g_quit q` is the evaluation of `while (!g_quit)` that read the value `q`
of `g_quit`. -/
inductive Action where
  | epoll_create (ok : Bool)
  | pgm_transport_epoll_ctl (ok : Bool)
  | epoll_ctl (ok : Bool)
  | g_error
  | g_main_loop_quit
  | pgm_recvmsgv (status : PGMIOStatus)
  | on_msgv (walk : Walk)
  | pgm_transport_get_timer_pending (tv : timeval)
  | pgm_transport_get_rate_remaining (tv : timeval)
  | g_message_wait (sec usec : Int)
  | wait (call : WaitCall)
  | g_warning
  | g_error_free
  | test_g_quit (g_quit : Bool)
  | close_efd
  deriving DecidableEq, Repr

/-- What the surroundings supply during one pass through the body of the
`do ... while (!g_quit)` loop: what `pgm_recvmsgv` returns (the status, `len`,
whether it set `err`) and the contents of the array `msgv[20]` when it has
returned (`msgv`: the entries it filled followed by what the slots behind them
still hold), the contents of `tv` at
the label `block:` (what the transport stored there, or whatever the variable
held when nothing was stored), and the value of `g_quit` when the body has
finished and the loop condition reads it. -/
structure Iteration where
  status : PGMIOStatus
  msgv : List pgm_msgv_t
  len : Nat
  err : Bool
  tv : timeval
  g_quit : Bool
  deriving DecidableEq, Repr

/-- The `switch (status)` of `receiver_thread`: what one pass does after
`pgm_recvmsgv` has returned. `len` is a `gsize` and is passed to the `guint`
parameter of `on_msgv`. -/
def dispatch (backend : Backend) (it : Iteration) : List Action :=
  match it.status with
  | PGM_IO_STATUS_NORMAL =>
    [.on_msgv (on_msgv it.msgv (it.len % GUINT_RANGE))]
  | PGM_IO_STATUS_TIMER_PENDING =>
    [.pgm_transport_get_timer_pending it.tv,
     .g_message_wait (it.tv.tv_sec % 2 ^ 32) (it.tv.tv_usec % 2 ^ 32),
     .wait (readiness_wait backend it.status it.tv)]
  | PGM_IO_STATUS_RATE_LIMITED =>
    [.pgm_transport_get_rate_remaining it.tv,
     .g_message_wait (it.tv.tv_sec % 2 ^ 32) (it.tv.tv_usec % 2 ^ 32),
     .wait (readiness_wait backend it.status it.tv)]
  | PGM_IO_STATUS_WOULD_BLOCK =>
    [.wait (readiness_wait backend it.status it.tv)]
  | _ =>
    if it.err then [.g_warning, .g_error_free] else []

/-- Whether the delivery of this pass leaves the array: `on_msgv` is called and
its walk reads behind the last slot of `msgv`, or through a slot that holds no
fragment. -/
def Iteration.leaves_array (it : Iteration) : Bool :=
  match it.status with
  | PGM_IO_STATUS_NORMAL =>
    match (on_msgv it.msgv (it.len % GUINT_RANGE)).exit with
    | .returned _ => false
    | _ => true
  | _ => false

/-- Where the thread is when the recorded run stops: about to call
`pgm_recvmsgv` again, returned from `receiver_thread`, or without defined
behaviour because `on_msgv` left the array. -/
inductive ThreadState where
  | looping
  | returned
  | undefined
  deriving DecidableEq, Repr

/-- What follows the loop: `close (efd)` in the epoll build. -/
def epilogue : Backend → List Action
  | .epoll => [.close_efd]
  | _ => []

/-- The loop `do { ... } while (!g_quit);` of `receiver_thread` run against the
passes the surroundings supply. The run recorded stops when the thread returns,
when `on_msgv` leaves the array, or when the supplied passes are used up and
the thread is about to call `pgm_recvmsgv` again. -/
def receiver_loop (backend : Backend) : List Iteration → List Action × ThreadState
  | [] => ([], .looping)
  | it :: rest =>
    let body := Action.pgm_recvmsgv it.status :: dispatch backend it
    if it.leaves_array then (body, .undefined)
    else if it.g_quit then (body ++ Action.test_g_quit true :: epilogue backend, .returned)
    else
      let r := receiver_loop backend rest
      (body ++ Action.test_g_quit false :: r.1, r.2)

/-- The results of the three set-up calls of the epoll build. -/
structure Setup where
  epoll_create_ok : Bool
  pgm_transport_epoll_ctl_ok : Bool
  epoll_ctl_ok : Bool
  deriving DecidableEq, Repr

/-- The code of `receiver_thread` before the loop: in the epoll build each of
the three calls that fails ends the thread after `g_error` and
`g_main_loop_quit`; the other builds have no call that can fail. The result is
the actions done and whether the loop is entered. -/
def receiver_setup (backend : Backend) (setup : Setup) : List Action × Bool :=
  match backend with
  | .epoll =>
    if !setup.epoll_create_ok then
      ([.epoll_create false, .g_error, .g_main_loop_quit], false)
    else if !setup.pgm_transport_epoll_ctl_ok then
      ([.epoll_create true, .pgm_transport_epoll_ctl false, .g_error, .g_main_loop_quit], false)
    else if !setup.epoll_ctl_ok then
      ([.epoll_create true, .pgm_transport_epoll_ctl true, .epoll_ctl false, .g_error,
        .g_main_loop_quit], false)
    else
      ([.epoll_create true, .pgm_transport_epoll_ctl true, .epoll_ctl true], true)
  | _ => ([], true)

/-- The function `receiver_thread`. -/
def receiver_thread (backend : Backend) (setup : Setup) (script : List Iteration) :
    List Action × ThreadState :=
  let s := receiver_setup backend setup
  if s.2 then
    let r := receiver_loop backend script
    (s.1 ++ r.1, r.2)
  else (s.1, .returned)

/-- Whether an action is a call of `pgm_recvmsgv`. -/
def Action.isRecv : Action → Bool
  | .pgm_recvmsgv _ => true
  | _ => false

/-- Whether an action is a readiness wait. -/
def Action.isWait : Action → Bool
  | .wait _ => true
  | _ => false

/-- Whether an action is a readiness wait that returned or a delivery
(`on_msgv`) that returned. -/
def Action.isWake : Action → Bool
  | .wait _ => true
  | .on_msgv w => match w.exit with
    | .returned _ => true
    | _ => false
  | _ => false

/-- The length of the first fragment of an entry, `msgv[i].msgv_skb[0]->len`
(zero for an entry without fragments, which the walk does not get past). -/
def firstLen (e : pgm_msgv_t) : Nat :=
  match e.msgv_skb.head? with
  | some pskb => pskb.len
  | none => 0

/-- The property of a run that the shutdown flag is read right after every
wake: each wait or delivery that returned is followed at once by the test of
`g_quit`, and when that test reads a set flag no call of `pgm_recvmsgv`
follows. -/
def QuitTestedAfterWake (tr : List Action) : Prop :=
  ∀ pre a post, tr = pre ++ a :: post → a.isWake = true →
    ∃ q post1, post = Action.test_g_quit q :: post1
      ∧ (q = true → ∀ x ∈ post1, x.isRecv = false)

/-! ## Lemmas on the walk -/

theorem batchSum_nil : batchSum [] = 0 := rfl

theorem batchSum_cons (e : pgm_msgv_t) (rest : List pgm_msgv_t) :
    batchSum (e :: rest) = apduSum e + batchSum rest := by
  simp [batchSum]

theorem batchSum_append (p q : List pgm_msgv_t) :
    batchSum (p ++ q) = batchSum p + batchSum q := by
  simp [batchSum]

theorem foldl_gsize (l : List pgm_sk_buff_t) (acc : Nat)
    (h : acc + (l.map (fun skb => skb.len)).sum < GSIZE_RANGE) :
    l.foldl (fun apdu_len skb => (apdu_len + skb.len) % GSIZE_RANGE) acc
      = acc + (l.map (fun skb => skb.len)).sum := by
  induction l generalizing acc with
  | nil => simp
  | cons skb rest ih =>
    simp only [List.map_cons, List.sum_cons] at h
    have hlt : acc + skb.len < GSIZE_RANGE := by omega
    simp only [List.foldl_cons, List.map_cons, List.sum_cons, Nat.mod_eq_of_lt hlt]
    rw [ih (acc + skb.len) (by omega)]
    omega

theorem apdu_len_of_eq (e : pgm_msgv_t) (h : apduSum e < GSIZE_RANGE) :
    apdu_len_of e = apduSum e := by
  unfold apdu_len_of
  rw [foldl_gsize e.msgv_skb 0 (by simpa [apduSum] using h)]
  simp [apduSum]

theorem foldl_gsize_lt (l : List pgm_sk_buff_t) (acc : Nat) (h : acc < GSIZE_RANGE) :
    l.foldl (fun apdu_len skb => (apdu_len + skb.len) % GSIZE_RANGE) acc < GSIZE_RANGE := by
  induction l generalizing acc with
  | nil => simpa using h
  | cons skb rest ih =>
    simp only [List.foldl_cons]
    exact ih _ (Nat.mod_lt _ (by decide))

theorem apdu_len_of_lt (e : pgm_msgv_t) : apdu_len_of e < GSIZE_RANGE :=
  foldl_gsize_lt e.msgv_skb 0 (by decide)

theorem len_sub_of_le (len a : Nat) (ha : a ≤ len) (hlen : len < GUINT_RANGE) :
    len_sub len a = len - a := by
  unfold len_sub
  simp only [GUINT_RANGE, GSIZE_RANGE] at *
  omega

theorem len_sub_add (len a : Nat) (ha : a < GSIZE_RANGE) :
    (len_sub len a + a) % GUINT_RANGE = len % GUINT_RANGE := by
  unfold len_sub
  simp only [GUINT_RANGE, GSIZE_RANGE] at *
  omega

theorem on_msgv_loop_cons (e : pgm_msgv_t) (rest : List pgm_msgv_t) (i len : Nat)
    (pskb : pgm_sk_buff_t) (h : e.msgv_skb.head? = some pskb) :
    on_msgv_loop (e :: rest) i len =
      if len_sub len (apdu_len_of e) ≠ 0 then
        { reads := i :: (on_msgv_loop rest (i + 1) (len_sub len (apdu_len_of e))).reads,
          lines := { i := i, buflen := min (SIZEOF_BUF - 1) pskb.len,
                     apdu_len := apdu_len_of e, tsi := pskb.tsi,
                     continued := decide (e.msgv_len > 1) } ::
                   (on_msgv_loop rest (i + 1) (len_sub len (apdu_len_of e))).lines,
          iterations := (on_msgv_loop rest (i + 1) (len_sub len (apdu_len_of e))).iterations + 1,
          len := (on_msgv_loop rest (i + 1) (len_sub len (apdu_len_of e))).len,
          exit := (on_msgv_loop rest (i + 1) (len_sub len (apdu_len_of e))).exit }
      else
        { reads := [i],
          lines := [{ i := i, buflen := min (SIZEOF_BUF - 1) pskb.len,
                      apdu_len := apdu_len_of e, tsi := pskb.tsi,
                      continued := decide (e.msgv_len > 1) }],
          iterations := 1, len := len_sub len (apdu_len_of e), exit := .returned 0 } := by
  simp only [on_msgv_loop, h]

theorem on_msgv_loop_none (e : pgm_msgv_t) (rest : List pgm_msgv_t) (i len : Nat)
    (h : e.msgv_skb.head? = none) :
    on_msgv_loop (e :: rest) i len =
      { reads := [i], lines := [], iterations := 0, len := len, exit := .no_fragment i } := by
  simp only [on_msgv_loop, h]

theorem head?_of_ne_nil (e : pgm_msgv_t) (h : e.msgv_skb ≠ []) :
    ∃ pskb, e.msgv_skb.head? = some pskb := by
  cases hs : e.msgv_skb with
  | nil => exact absurd hs h
  | cons a l => exact ⟨a, rfl⟩

theorem reads_in_batch_loop (es stale : List pgm_msgv_t) (i len : Nat) (hne : es ≠ [])
    (hlen : len = batchSum es) (hb : batchSum es < GUINT_RANGE) :
    ∀ r ∈ (on_msgv_loop (es ++ stale) i len).reads, i ≤ r ∧ r < i + es.length := by
  induction es generalizing i len with
  | nil => exact absurd rfl hne
  | cons e rest ih =>
    intro r hr
    rw [List.cons_append] at hr
    cases hh : e.msgv_skb.head? with
    | none =>
      rw [on_msgv_loop_none e (rest ++ stale) i len hh] at hr
      simp only [List.mem_singleton] at hr
      simp only [List.length_cons]
      omega
    | some pskb =>
      rw [on_msgv_loop_cons e (rest ++ stale) i len pskb hh] at hr
      rw [batchSum_cons] at hlen hb
      have hfit : apduSum e < GSIZE_RANGE := by
        simp only [GUINT_RANGE, GSIZE_RANGE] at *
        omega
      rw [apdu_len_of_eq e hfit, len_sub_of_le len (apduSum e) (by omega) (by omega)] at hr
      have hrest : len - apduSum e = batchSum rest := by omega
      by_cases hz : len - apduSum e ≠ 0
      · rw [if_pos hz] at hr
        simp only [List.mem_cons] at hr
        simp only [List.length_cons]
        rcases hr with hr | hr
        · omega
        · have hne1 : rest ≠ [] := by
            intro hnil
            rw [hnil, batchSum_nil] at hrest
            exact hz hrest
          have := ih (i + 1) (len - apduSum e) hne1 hrest (by omega) r hr
          omega
      · rw [if_neg hz] at hr
        simp only [List.mem_singleton] at hr
        simp only [List.length_cons]
        omega

theorem walk_complete_loop (es stale : List pgm_msgv_t) (i len : Nat) (hne : es ≠ [])
    (hfrag : ∀ e ∈ es, e.msgv_skb ≠ [])
    (hlast : es.length = 1 ∨ 0 < apduSum (es.getLast hne))
    (hlen : len = batchSum es) (hb : len < GUINT_RANGE) :
    (on_msgv_loop (es ++ stale) i len).iterations = es.length
      ∧ (on_msgv_loop (es ++ stale) i len).len = 0
      ∧ (on_msgv_loop (es ++ stale) i len).exit = .returned 0
      ∧ (on_msgv_loop (es ++ stale) i len).reads = List.range' i es.length := by
  induction es generalizing i len with
  | nil => exact absurd rfl hne
  | cons e rest ih =>
    obtain ⟨pskb, hh⟩ := head?_of_ne_nil e (hfrag e (List.mem_cons_self _ _))
    rw [List.cons_append, on_msgv_loop_cons e (rest ++ stale) i len pskb hh]
    rw [batchSum_cons] at hlen
    have hfit : apduSum e < GSIZE_RANGE := by
      simp only [GUINT_RANGE, GSIZE_RANGE] at *
      omega
    rw [apdu_len_of_eq e hfit, len_sub_of_le len (apduSum e) (by omega) hb]
    have hrest : len - apduSum e = batchSum rest := by omega
    cases rest with
    | nil =>
      have hz : ¬ (len - apduSum e ≠ 0) := by
        rw [hrest, batchSum_nil]
        simp
      rw [if_neg hz]
      refine ⟨rfl, ?_, rfl, ?_⟩
      · simpa using hz
      · simp [List.range']
    | cons e2 rest2 =>
      have hne2 : e2 :: rest2 ≠ [] := List.cons_ne_nil _ _
      have hlast2 : 0 < apduSum ((e2 :: rest2).getLast hne2) := by
        rcases hlast with hlast | hlast
        · simp at hlast
        · rw [List.getLast_cons hne2] at hlast
          exact hlast
      have hle : apduSum ((e2 :: rest2).getLast hne2) ≤ batchSum (e2 :: rest2) := by
        have hmem : apduSum ((e2 :: rest2).getLast hne2) ∈ (e2 :: rest2).map apduSum :=
          List.mem_map_of_mem _ (List.getLast_mem hne2)
        exact List.single_le_sum (fun _ _ => Nat.zero_le _) _ hmem
      have hz : len - apduSum e ≠ 0 := by omega
      rw [if_pos hz]
      obtain ⟨h1, h2, h3, h4⟩ := ih (i + 1) (len - apduSum e) hne2
        (fun x hx => hfrag x (List.mem_cons_of_mem _ hx)) (Or.inr hlast2) hrest (by omega)
      refine ⟨?_, h2, h3, ?_⟩
      · simp only [h1, List.length_cons]
      · simp only [h4, List.length_cons, List.range']

theorem walk_lines_loop (es : List pgm_msgv_t) (i len : Nat)
    (hfit : ∀ e ∈ es, apduSum e < GSIZE_RANGE) :
    (on_msgv_loop es i len).lines.map (fun l => l.apdu_len)
        = (es.take (on_msgv_loop es i len).iterations).map apduSum
      ∧ (on_msgv_loop es i len).lines.map (fun l => l.buflen)
        = (es.take (on_msgv_loop es i len).iterations).map
            (fun e => min (SIZEOF_BUF - 1) (firstLen e))
      ∧ (on_msgv_loop es i len).lines.map (fun l => l.i)
        = List.range' i (on_msgv_loop es i len).iterations
      ∧ ((on_msgv_loop es i len).len
          + ((on_msgv_loop es i len).lines.map (fun l => l.apdu_len)).sum) % GUINT_RANGE
        = len % GUINT_RANGE := by
  induction es generalizing i len with
  | nil => simp [on_msgv_loop, List.range']
  | cons e rest ih =>
    cases hh : e.msgv_skb.head? with
    | none =>
      rw [on_msgv_loop_none e rest i len hh]
      simp [List.range']
    | some pskb =>
      rw [on_msgv_loop_cons e rest i len pskb hh]
      have hfl : firstLen e = pskb.len := by simp [firstLen, hh]
      have hsum := apdu_len_of_eq e (hfit e (List.mem_cons_self _ _))
      have hacc := len_sub_add len (apdu_len_of e) (apdu_len_of_lt e)
      by_cases hz : len_sub len (apdu_len_of e) ≠ 0
      · rw [if_pos hz]
        obtain ⟨h1, h2, h3, h4⟩ := ih (i + 1) (len_sub len (apdu_len_of e))
          (fun x hx => hfit x (List.mem_cons_of_mem _ hx))
        refine ⟨?_, ?_, ?_, ?_⟩
        · simp only [List.map_cons, List.take_succ_cons]
          rw [h1, hsum]
        · simp only [List.map_cons, List.take_succ_cons]
          rw [h2, hfl]
        · simp only [List.map_cons, h3, List.range']
        · simp only [List.map_cons, List.sum_cons]
          simp only [GUINT_RANGE] at *
          omega
      · rw [if_neg hz]
        refine ⟨?_, ?_, ?_, ?_⟩
        · simp [hsum]
        · simp [hfl]
        · simp [List.range']
        · simpa using hacc

/-! ## Lemmas on the receive loop -/

theorem quitTested_nil : QuitTestedAfterWake [] := by
  intro pre a post h
  exact absurd h (by simp)

theorem quitTested_cons (a0 : Action) (tr : List Action) (htr : QuitTestedAfterWake tr)
    (h0 : a0.isWake = true → ∃ q post1, tr = Action.test_g_quit q :: post1
      ∧ (q = true → ∀ x ∈ post1, x.isRecv = false)) :
    QuitTestedAfterWake (a0 :: tr) := by
  intro pre a post h hw
  cases pre with
  | nil =>
    simp only [List.nil_append, List.cons.injEq] at h
    obtain ⟨ha, hp⟩ := h
    subst ha
    subst hp
    exact h0 hw
  | cons p pre1 =>
    simp only [List.cons_append, List.cons.injEq] at h
    exact htr pre1 a post h.2 hw

theorem quitTested_cons_of_not_wake (a0 : Action) (tr : List Action)
    (htr : QuitTestedAfterWake tr) (h0 : a0.isWake = false) :
    QuitTestedAfterWake (a0 :: tr) :=
  quitTested_cons a0 tr htr (fun hw => by rw [h0] at hw; exact absurd hw (by decide))

theorem quitTested_append (l tr : List Action) (htr : QuitTestedAfterWake tr)
    (hl : ∀ x ∈ l, x.isWake = false) : QuitTestedAfterWake (l ++ tr) := by
  induction l with
  | nil => simpa using htr
  | cons x rest ih =>
    rw [List.cons_append]
    exact quitTested_cons_of_not_wake x _
      (ih (fun y hy => hl y (List.mem_cons_of_mem _ hy))) (hl x (List.mem_cons_self _ _))

theorem epilogue_no_recv (backend : Backend) : ∀ x ∈ epilogue backend, x.isRecv = false := by
  cases backend <;> simp [epilogue, Action.isRecv]

theorem quitTested_epilogue (backend : Backend) : QuitTestedAfterWake (epilogue backend) := by
  cases backend
  · exact quitTested_cons_of_not_wake _ _ quitTested_nil rfl
  · exact quitTested_nil
  · exact quitTested_nil

theorem quitTested_test (q : Bool) (tail : List Action) (h : QuitTestedAfterWake tail) :
    QuitTestedAfterWake (Action.test_g_quit q :: tail) :=
  quitTested_cons_of_not_wake _ _ h rfl

theorem quitTested_body (backend : Backend) (it : Iteration) (q : Bool) (tail : List Action)
    (htail : QuitTestedAfterWake tail) (hq : q = true → ∀ x ∈ tail, x.isRecv = false) :
    QuitTestedAfterWake
      ((Action.pgm_recvmsgv it.status :: dispatch backend it) ++ Action.test_g_quit q :: tail) := by
  have htest := quitTested_test q tail htail
  have hwake : ∀ a : Action, QuitTestedAfterWake (a :: Action.test_g_quit q :: tail) :=
    fun a => quitTested_cons a _ htest (fun _ => ⟨q, tail, rfl, hq⟩)
  have hskip : ∀ (a : Action) (tr : List Action), a.isWake = false →
      QuitTestedAfterWake tr → QuitTestedAfterWake (a :: tr) :=
    fun a tr ha htr => quitTested_cons_of_not_wake a tr htr ha
  rw [List.cons_append]
  refine hskip _ _ rfl ?_
  obtain ⟨status, msgv, len, err, tv, g_quit⟩ := it
  cases status with
  | PGM_IO_STATUS_NORMAL => exact hwake _
  | PGM_IO_STATUS_TIMER_PENDING => exact hskip _ _ rfl (hskip _ _ rfl (hwake _))
  | PGM_IO_STATUS_RATE_LIMITED => exact hskip _ _ rfl (hskip _ _ rfl (hwake _))
  | PGM_IO_STATUS_WOULD_BLOCK => exact hwake _
  | PGM_IO_STATUS_ERROR =>
    cases err
    · exact htest
    · exact hskip _ _ rfl (hskip _ _ rfl htest)
  | other code =>
    cases err
    · exact htest
    · exact hskip _ _ rfl (hskip _ _ rfl htest)

theorem quitTested_body_undefined (backend : Backend) (it : Iteration)
    (h : it.leaves_array = true) :
    QuitTestedAfterWake (Action.pgm_recvmsgv it.status :: dispatch backend it) := by
  refine quitTested_cons_of_not_wake _ _ ?_ rfl
  obtain ⟨status, msgv, len, err, tv, g_quit⟩ := it
  cases status with
  | PGM_IO_STATUS_NORMAL =>
    refine quitTested_cons_of_not_wake _ _ quitTested_nil ?_
    simp only [Iteration.leaves_array] at h
    simp only [Action.isWake]
    cases hw : (on_msgv msgv (len % GUINT_RANGE)).exit with
    | returned v => rw [hw] at h; exact absurd h (by simp)
    | past_end i => rfl
    | no_fragment i => rfl
  | PGM_IO_STATUS_TIMER_PENDING => exact absurd h (by simp [Iteration.leaves_array])
  | PGM_IO_STATUS_RATE_LIMITED => exact absurd h (by simp [Iteration.leaves_array])
  | PGM_IO_STATUS_WOULD_BLOCK => exact absurd h (by simp [Iteration.leaves_array])
  | PGM_IO_STATUS_ERROR => exact absurd h (by simp [Iteration.leaves_array])
  | other code => exact absurd h (by simp [Iteration.leaves_array])

theorem quitTested_loop (backend : Backend) (script : List Iteration) :
    QuitTestedAfterWake (receiver_loop backend script).1 := by
  induction script with
  | nil => exact quitTested_nil
  | cons it rest ih =>
    unfold receiver_loop
    by_cases hl : it.leaves_array = true
    · simp only [hl, if_true]
      exact quitTested_body_undefined backend it hl
    · simp only [hl]
      by_cases hq : it.g_quit = true
      · simp only [hq, if_true]
        exact quitTested_body backend it true _ (quitTested_epilogue backend)
          (fun _ => epilogue_no_recv backend)
      · simp only [hq]
        exact quitTested_body backend it false _ ih (fun h => absurd h (by decide))

theorem receiver_loop_cons (backend : Backend) (it : Iteration) (rest : List Iteration) :
    receiver_loop backend (it :: rest)
      = if it.leaves_array then
          (Action.pgm_recvmsgv it.status :: dispatch backend it, ThreadState.undefined)
        else if it.g_quit then
          ((Action.pgm_recvmsgv it.status :: dispatch backend it)
            ++ Action.test_g_quit true :: epilogue backend, ThreadState.returned)
        else
          ((Action.pgm_recvmsgv it.status :: dispatch backend it)
            ++ Action.test_g_quit false :: (receiver_loop backend rest).1,
           (receiver_loop backend rest).2) := by
  simp only [receiver_loop]

theorem receiver_loop_append (backend : Backend) (pre rest : List Iteration)
    (hpre : ∀ p ∈ pre, p.leaves_array = false ∧ p.g_quit = false) :
    receiver_loop backend (pre ++ rest)
      = ((receiver_loop backend pre).1 ++ (receiver_loop backend rest).1,
         (receiver_loop backend rest).2) := by
  induction pre with
  | nil => simp [receiver_loop]
  | cons p pre1 ih =>
    obtain ⟨h1, h2⟩ := hpre p (List.mem_cons_self _ _)
    have ih1 := ih (fun x hx => hpre x (List.mem_cons_of_mem _ hx))
    rw [List.cons_append, receiver_loop_cons, receiver_loop_cons, h1, h2, ih1]
    simp

theorem timeout_ms_in_range (status : PGMIOStatus) (tv : timeval)
    (hs : status ≠ PGM_IO_STATUS_WOULD_BLOCK)
    (h0 : 0 ≤ tv.tv_sec) (h1 : tv.tv_sec ≤ 2147482) (h2 : 0 ≤ tv.tv_usec)
    (h3 : tv.tv_usec < 1000000) :
    timeout_ms status tv = tv.tv_sec * 1000 + tv.tv_usec / 1000 := by
  unfold timeout_ms to_int
  rw [if_neg (fun h => hs h.symm), Int.tdiv_eq_ediv h2 (by decide)]
  omega

/-! ## The walk of `on_msgv` -/

/-- C1, as stated, fails: the batch `[{5}, {0}]` with `len = 5`, the sum of its
fragment lengths, is walked in one pass although it has two entries. -/
theorem on_msgv_trailing_empty_apdu :
    batchSum (batchOf [[5], [0]]) = 5
      ∧ (batchOf [[5], [0]]).length = 2
      ∧ (on_msgv (batchOf [[5], [0]]) 5).iterations = 1
      ∧ (on_msgv (batchOf [[5], [0]]) 5).iterations ≠ (batchOf [[5], [0]]).length := by
  decide

/-- C1, amended: for a non-empty batch in which every entry has at least one
fragment and which has one entry only or a last entry with a non-zero APDU
length, passed with `len` equal to the sum of all fragment lengths (a `guint`,
so below `2 ^ 32`), the walk makes exactly as many passes as there are entries,
ends with `len = 0` and returns 0, whatever the slots of the array behind the
batch hold. -/
theorem on_msgv_conservation (msgv stale : List pgm_msgv_t) (len : Nat) (hne : msgv ≠ [])
    (hfrag : ∀ e ∈ msgv, 1 ≤ e.msgv_len)
    (hlast : msgv.length = 1 ∨ 0 < apduSum (msgv.getLast hne))
    (hlen : len = batchSum msgv) (hb : len < GUINT_RANGE) :
    (on_msgv (msgv ++ stale) len).iterations = msgv.length
      ∧ (on_msgv (msgv ++ stale) len).len = 0
      ∧ (on_msgv (msgv ++ stale) len).exit = .returned 0 := by
  have hfrag1 : ∀ e ∈ msgv, e.msgv_skb ≠ [] := by
    intro e he hnil
    have := hfrag e he
    simp [pgm_msgv_t.msgv_len, hnil] at this
  obtain ⟨h1, h2, h3, _⟩ := walk_complete_loop msgv stale 0 len hne hfrag1 hlast hlen hb
  exact ⟨h1, h2, h3⟩

/-- The amended C1 at the batch `[{10, 20, 5}, {7}]` with `len = 42`, followed in
the array by a slot left over from an earlier batch, and at the one-entry batch
`[{0}]` with `len = 0`. -/
theorem on_msgv_conservation_witness :
    ((on_msgv (batchOf [[10, 20, 5], [7]] ++ batchOf [[3]]) 42).iterations
          = (batchOf [[10, 20, 5], [7]]).length
        ∧ (on_msgv (batchOf [[10, 20, 5], [7]] ++ batchOf [[3]]) 42).len = 0
        ∧ (on_msgv (batchOf [[10, 20, 5], [7]] ++ batchOf [[3]]) 42).exit = .returned 0)
      ∧ ((on_msgv (batchOf [[0]] ++ []) 0).iterations = (batchOf [[0]]).length
        ∧ (on_msgv (batchOf [[0]] ++ []) 0).len = 0
        ∧ (on_msgv (batchOf [[0]] ++ []) 0).exit = .returned 0) :=
  ⟨on_msgv_conservation (batchOf [[10, 20, 5], [7]]) (batchOf [[3]]) 42 (by decide) (by decide)
      (Or.inr (by decide)) (by decide) (by decide),
   on_msgv_conservation (batchOf [[0]]) [] 0 (by decide) (by decide)
      (Or.inl (by decide)) (by decide) (by decide)⟩

/-- C2: for every batch whose APDU lengths fit a `gsize`, the APDU length
printed for each entry visited is the sum of the lengths of all fragments of
that entry, the preview length is `min 1999` of the length of the first
fragment, and what the walk has subtracted from `len` is the sum of the lengths
printed (modulo `2 ^ 32`); the batch `[{10, 20, 5}, {7}]` with `len = 42` is
reported as the lengths 35 and 7, with previews of 10 and 7 bytes, and ends
with remainder 0. -/
theorem on_msgv_reports_fragment_sum (msgv : List pgm_msgv_t) (len : Nat)
    (hfit : ∀ e ∈ msgv, apduSum e < GSIZE_RANGE) :
    ((on_msgv msgv len).lines.map (fun l => l.apdu_len)
        = (msgv.take (on_msgv msgv len).iterations).map apduSum)
      ∧ ((on_msgv msgv len).lines.map (fun l => l.buflen)
        = (msgv.take (on_msgv msgv len).iterations).map (fun e => min 1999 (firstLen e)))
      ∧ ((on_msgv msgv len).lines.map (fun l => l.i)
        = List.range (on_msgv msgv len).iterations)
      ∧ (((on_msgv msgv len).len
          + ((on_msgv msgv len).lines.map (fun l => l.apdu_len)).sum) % 2 ^ 32 = len % 2 ^ 32)
      ∧ (on_msgv (batchOf [[10, 20, 5], [7]]) 42).lines.map (fun l => l.apdu_len) = [35, 7]
      ∧ (on_msgv (batchOf [[10, 20, 5], [7]]) 42).lines.map (fun l => l.buflen) = [10, 7]
      ∧ (on_msgv (batchOf [[10, 20, 5], [7]]) 42).len = 0 := by
  obtain ⟨h1, h2, h3, h4⟩ := walk_lines_loop msgv 0 len hfit
  refine ⟨h1, h2, ?_, h4, by decide, by decide, by decide⟩
  rw [List.range_eq_range']
  exact h3

/-- C2 at a batch whose second entry has a first fragment longer than the
preview buffer: the lengths printed are 35 and 3007, the previews 10 and
1999 bytes. -/
theorem on_msgv_reports_fragment_sum_witness :
    (on_msgv (batchOf [[10, 20, 5], [3000, 7]]) 3042).lines.map (fun l => l.apdu_len)
        = ((batchOf [[10, 20, 5], [3000, 7]]).take 2).map apduSum
      ∧ (on_msgv (batchOf [[10, 20, 5], [3000, 7]]) 3042).lines.map (fun l => l.buflen)
        = [10, 1999] := by
  have h := on_msgv_reports_fragment_sum (batchOf [[10, 20, 5], [3000, 7]]) 3042 (by decide)
  have hit : (on_msgv (batchOf [[10, 20, 5], [3000, 7]]) 3042).iterations = 2 := by decide
  rw [hit] at h
  exact ⟨h.1, by decide⟩

/-- C7: for a non-empty batch passed with `len` equal to the sum of all its
fragment lengths, a sum below `2 ^ 32`, every index `i` at which the walk reads
`msgv[i]` is less than the number of entries of the batch, whatever the slots
of the array behind the batch hold. -/
theorem on_msgv_reads_in_batch (msgv stale : List pgm_msgv_t) (len : Nat) (hne : msgv ≠ [])
    (hlen : len = batchSum msgv) (hb : batchSum msgv < 2 ^ 32) :
    ∀ i ∈ (on_msgv (msgv ++ stale) len).reads, i < msgv.length := by
  intro i hi
  have := reads_in_batch_loop msgv stale 0 len hne hlen hb i hi
  omega

/-- C7 at the batch `[{10, 20, 5}, {7}]` followed by a left-over slot: the walk
reads the indices 0 and 1. -/
theorem on_msgv_reads_in_batch_witness :
    (on_msgv (batchOf [[10, 20, 5], [7]] ++ batchOf [[3]]) 42).reads = [0, 1]
      ∧ ∀ i ∈ (on_msgv (batchOf [[10, 20, 5], [7]] ++ batchOf [[3]]) 42).reads,
          i < (batchOf [[10, 20, 5], [7]]).length :=
  ⟨by decide,
   on_msgv_reads_in_batch (batchOf [[10, 20, 5], [7]]) (batchOf [[3]]) 42 (by decide)
     (by decide) (by decide)⟩

/-- C3, evaluated at the deadline (0 s, 50000 us): for `PGM_IO_STATUS_TIMER_PENDING`
the epoll and the poll build wait with a timeout of 50 ms, but the select build
calls `select` with the `NULL` timeout and waits without limit; for
`PGM_IO_STATUS_WOULD_BLOCK` all three builds wait without limit. -/
theorem select_ignores_timer_pending :
    readiness_wait .select PGM_IO_STATUS_TIMER_PENDING ⟨0, 50000⟩ = .select none
      ∧ (readiness_wait .select PGM_IO_STATUS_TIMER_PENDING ⟨0, 50000⟩).indefinite = true
      ∧ readiness_wait .epoll PGM_IO_STATUS_TIMER_PENDING ⟨0, 50000⟩ = .epoll_wait 50
      ∧ readiness_wait .poll PGM_IO_STATUS_TIMER_PENDING ⟨0, 50000⟩ = .poll 50
      ∧ (∀ backend tv, (readiness_wait backend PGM_IO_STATUS_WOULD_BLOCK tv).indefinite = true
          ∧ (readiness_wait backend PGM_IO_STATUS_WOULD_BLOCK tv).maxWait = none) := by
  refine ⟨by decide, by decide, by decide, by decide, ?_⟩
  intro backend tv
  cases backend <;> simp [readiness_wait, timeout_ms, WaitCall.indefinite, WaitCall.maxWait]

/-- C4: in a pass of the loop in which `pgm_recvmsgv` returns
`PGM_IO_STATUS_ERROR` and `g_quit` is not set, reached after any passes that did
not end the run, the thread does no readiness wait (it prints the warning when
`err` is set, nothing else), tests `g_quit` and goes on with the loop: the next
action is the `pgm_recvmsgv` call of the following pass. Whether the thread
returns after such a pass depends on `g_quit` alone. -/
theorem receiver_error_continues (backend : Backend) (pre : List Iteration) (it : Iteration)
    (rest : List Iteration)
    (hpre : ∀ p ∈ pre, p.leaves_array = false ∧ p.g_quit = false)
    (hs : it.status = PGM_IO_STATUS_ERROR) (hq : it.g_quit = false) :
    (∀ a ∈ dispatch backend it, a.isWait = false)
      ∧ dispatch backend it = (if it.err then [.g_warning, .g_error_free] else [])
      ∧ receiver_loop backend (pre ++ it :: rest)
        = ((receiver_loop backend pre).1
            ++ (Action.pgm_recvmsgv PGM_IO_STATUS_ERROR :: dispatch backend it
                ++ Action.test_g_quit false :: (receiver_loop backend rest).1),
           (receiver_loop backend rest).2)
      ∧ (∀ next rest1, rest = next :: rest1 →
          (receiver_loop backend rest).1.head? = some (Action.pgm_recvmsgv next.status))
      ∧ (∀ q, (receiver_loop backend [{ it with g_quit := q }]).2
          = if q then ThreadState.returned else ThreadState.looping) := by
  have hd : dispatch backend it = (if it.err then [.g_warning, .g_error_free] else []) := by
    simp [dispatch, hs]
  have hl : it.leaves_array = false := by simp [Iteration.leaves_array, hs]
  refine ⟨?_, hd, ?_, ?_, ?_⟩
  · intro a ha
    rw [hd] at ha
    cases he : it.err <;> simp [he] at ha
    rcases ha with ha | ha <;> subst ha <;> rfl
  · rw [receiver_loop_append backend pre (it :: rest) hpre]
    simp [receiver_loop, hl, hq, hs]
  · intro next rest1 hr
    subst hr
    unfold receiver_loop
    by_cases h1 : next.leaves_array = true
    · simp [h1]
    · by_cases h2 : next.g_quit = true
      · simp [h1, h2]
      · simp [h1, h2]
  · intro q
    have hl1 : ({ it with g_quit := q } : Iteration).leaves_array = false := by
      simp [Iteration.leaves_array, hs]
    cases q <;> simp [receiver_loop, hl1]

/-- C4 at the run "error with `err` set, then a normal batch, then shutdown": the
warning is printed, `g_quit` is tested, and `pgm_recvmsgv` is called again. -/
theorem receiver_error_continues_witness :
    (receiver_loop .epoll
        [{ status := PGM_IO_STATUS_ERROR, msgv := [], len := 0, err := true, tv := ⟨0, 0⟩,
           g_quit := false },
         { status := PGM_IO_STATUS_NORMAL, msgv := batchOf [[7]], len := 7, err := false,
           tv := ⟨0, 0⟩, g_quit := true }]).1.take 5
      = [.pgm_recvmsgv PGM_IO_STATUS_ERROR, .g_warning, .g_error_free, .test_g_quit false,
         .pgm_recvmsgv PGM_IO_STATUS_NORMAL] := by
  have h := (receiver_error_continues .epoll []
    { status := PGM_IO_STATUS_ERROR, msgv := [], len := 0, err := true, tv := ⟨0, 0⟩,
      g_quit := false }
    [{ status := PGM_IO_STATUS_NORMAL, msgv := batchOf [[7]], len := 7, err := false,
       tv := ⟨0, 0⟩, g_quit := true }]
    (by simp) rfl rfl).2.2.1
  rw [List.nil_append] at h
  rw [h]
  decide

/-- C5, evaluated: for `PGM_IO_STATUS_WOULD_BLOCK` the three builds all wait
without limit, for `PGM_IO_STATUS_RATE_LIMITED` all three pass a timeout taken
from `tv`, but for `PGM_IO_STATUS_TIMER_PENDING` with the deadline (1 s, 500000 us)
the epoll and the poll build wait at most 1500 ms while the select build waits
without limit. -/
theorem backends_differ_on_timer_pending :
    (∀ tv, (readiness_wait .epoll PGM_IO_STATUS_WOULD_BLOCK tv).maxWait = none
        ∧ (readiness_wait .poll PGM_IO_STATUS_WOULD_BLOCK tv).maxWait = none
        ∧ (readiness_wait .select PGM_IO_STATUS_WOULD_BLOCK tv).maxWait = none)
      ∧ (∀ tv, readiness_wait .epoll PGM_IO_STATUS_RATE_LIMITED tv
            = .epoll_wait (to_int (tv.tv_sec * 1000 + Int.tdiv tv.tv_usec 1000))
        ∧ readiness_wait .poll PGM_IO_STATUS_RATE_LIMITED tv
            = .poll (to_int (tv.tv_sec * 1000 + Int.tdiv tv.tv_usec 1000))
        ∧ readiness_wait .select PGM_IO_STATUS_RATE_LIMITED tv = .select (some tv))
      ∧ (readiness_wait .epoll PGM_IO_STATUS_TIMER_PENDING ⟨1, 500000⟩).maxWait = some 1500000
      ∧ (readiness_wait .poll PGM_IO_STATUS_TIMER_PENDING ⟨1, 500000⟩).maxWait = some 1500000
      ∧ (readiness_wait .select PGM_IO_STATUS_TIMER_PENDING ⟨1, 500000⟩).maxWait = none := by
  refine ⟨?_, ?_, by decide, by decide, by decide⟩
  · intro tv
    simp [readiness_wait, timeout_ms, WaitCall.maxWait]
  · intro tv
    simp [readiness_wait, timeout_ms]

/-- C6: in every run of `receiver_thread`, each readiness wait that returned and
each delivery (`on_msgv`) that returned is followed at once by the test of
`g_quit`, before any other action; and when that test reads a set flag, no
call of `pgm_recvmsgv` follows in the run. -/
theorem receiver_tests_quit_after_wake (backend : Backend) (setup : Setup)
    (script : List Iteration) :
    ∀ pre a post, (receiver_thread backend setup script).1 = pre ++ a :: post →
      a.isWake = true →
      ∃ q post1, post = Action.test_g_quit q :: post1
        ∧ (q = true → ∀ x ∈ post1, x.isRecv = false) := by
  have hsetup : ∀ x ∈ (receiver_setup backend setup).1, x.isWake = false := by
    intro x hx
    unfold receiver_setup at hx
    cases backend with
    | epoll =>
      simp only at hx
      split at hx
      · simp at hx; rcases hx with hx | hx | hx <;> subst hx <;> rfl
      · split at hx
        · simp at hx; rcases hx with hx | hx | hx | hx <;> subst hx <;> rfl
        · split at hx
          · simp at hx; rcases hx with hx | hx | hx | hx | hx <;> subst hx <;> rfl
          · simp at hx; rcases hx with hx | hx | hx <;> subst hx <;> rfl
    | poll => simp at hx
    | select => simp at hx
  have h : QuitTestedAfterWake (receiver_thread backend setup script).1 := by
    unfold receiver_thread
    by_cases hs : (receiver_setup backend setup).2 = true
    · simp only [hs, if_true]
      exact quitTested_append _ _ (quitTested_loop backend script) hsetup
    · simp only [hs]
      have := quitTested_append _ [] quitTested_nil hsetup
      simpa using this
  exact h

/-- C6 at a run of the poll build: shutdown is seen right after the wait that
`PGM_IO_STATUS_WOULD_BLOCK` led to, and the run ends there. -/
theorem receiver_tests_quit_after_wake_witness :
    ∃ q post1, ([] : List Action) ++ [Action.test_g_quit true]
        = Action.test_g_quit q :: post1
      ∧ (q = true → ∀ x ∈ post1, x.isRecv = false) :=
  receiver_tests_quit_after_wake .poll ⟨true, true, true⟩
    [{ status := PGM_IO_STATUS_WOULD_BLOCK, msgv := [], len := 0, err := false, tv := ⟨0, 0⟩,
       g_quit := true }]
    [.pgm_recvmsgv PGM_IO_STATUS_WOULD_BLOCK] (.wait (.poll (-1))) [.test_g_quit true]
    (by decide) rfl

/-- C9: for `PGM_IO_STATUS_RATE_LIMITED` with the deadline (0 s, 0 us) every build
issues its wait with a timeout of zero, not an indefinite one: `epoll_wait` and
`poll` get 0 ms, `select` gets the zero `timeval`; and in a pass with that
status and `g_quit` not set the thread does the wait, tests `g_quit` and goes on
to the next `pgm_recvmsgv`. -/
theorem rate_limited_zero_deadline (backend : Backend) :
    readiness_wait backend PGM_IO_STATUS_RATE_LIMITED ⟨0, 0⟩
        = (match backend with
           | .epoll => .epoll_wait 0
           | .poll => .poll 0
           | .select => .select (some ⟨0, 0⟩))
      ∧ (readiness_wait backend PGM_IO_STATUS_RATE_LIMITED ⟨0, 0⟩).maxWait = some 0
      ∧ (readiness_wait backend PGM_IO_STATUS_RATE_LIMITED ⟨0, 0⟩).indefinite = false
      ∧ (∀ msgv len err rest,
          receiver_loop backend
            ({ status := PGM_IO_STATUS_RATE_LIMITED, msgv := msgv, len := len, err := err,
               tv := ⟨0, 0⟩, g_quit := false } :: rest)
          = ([.pgm_recvmsgv PGM_IO_STATUS_RATE_LIMITED,
              .pgm_transport_get_rate_remaining ⟨0, 0⟩,
              .g_message_wait 0 0,
              .wait (readiness_wait backend PGM_IO_STATUS_RATE_LIMITED ⟨0, 0⟩),
              .test_g_quit false] ++ (receiver_loop backend rest).1,
             (receiver_loop backend rest).2)) := by
  refine ⟨?_, ?_, ?_, ?_⟩
  · cases backend <;> decide
  · cases backend <;> decide
  · cases backend <;> decide
  · intro msgv len err rest
    simp [receiver_loop, dispatch, Iteration.leaves_array]

/-- C10: for a deadline with `0 ≤ tv_sec ≤ 2147482` and `0 ≤ tv_usec < 1000000`
and a status other than `PGM_IO_STATUS_WOULD_BLOCK`, the timeout the epoll and
the poll build store in the `int` is `tv_sec * 1000 + tv_usec / 1000` without
wrapping, lies between 0 and `2 ^ 31 - 1` (so it is not the -1 of an indefinite
wait), and is the deadline rounded down to milliseconds, so the wait issued
does not exceed the deadline. -/
theorem timeout_ms_fits_int (status : PGMIOStatus) (tv : timeval)
    (hs : status ≠ PGM_IO_STATUS_WOULD_BLOCK)
    (h0 : 0 ≤ tv.tv_sec) (h1 : tv.tv_sec ≤ 2147482) (h2 : 0 ≤ tv.tv_usec)
    (h3 : tv.tv_usec < 1000000) :
    timeout_ms status tv = tv.tv_sec * 1000 + tv.tv_usec / 1000
      ∧ 0 ≤ timeout_ms status tv
      ∧ timeout_ms status tv ≤ 2 ^ 31 - 1
      ∧ timeout_ms status tv ≠ -1
      ∧ timeout_ms status tv * 1000 ≤ tv.tv_sec * 1000000 + tv.tv_usec
      ∧ tv.tv_sec * 1000000 + tv.tv_usec < (timeout_ms status tv + 1) * 1000
      ∧ (readiness_wait .epoll status tv).maxWait = some (timeout_ms status tv * 1000)
      ∧ (readiness_wait .poll status tv).maxWait = some (timeout_ms status tv * 1000) := by
  have ht := timeout_ms_in_range status tv hs h0 h1 h2 h3
  have hnn : ¬ timeout_ms status tv < 0 := by rw [ht]; omega
  refine ⟨ht, ?_, ?_, ?_, ?_, ?_, ?_, ?_⟩
  · omega
  · omega
  · omega
  · omega
  · omega
  · simp [readiness_wait, WaitCall.maxWait, hnn]
  · simp [readiness_wait, WaitCall.maxWait, hnn]

/-- C10 at the largest deadline of the range, (2147482 s, 999999 us): the
timeout is 2147482999 ms. -/
theorem timeout_ms_fits_int_witness :
    timeout_ms PGM_IO_STATUS_TIMER_PENDING ⟨2147482, 999999⟩ = 2147482 * 1000 + 999999 / 1000
      ∧ timeout_ms PGM_IO_STATUS_TIMER_PENDING ⟨2147482, 999999⟩ ≤ 2 ^ 31 - 1 :=
  have h := timeout_ms_fits_int PGM_IO_STATUS_TIMER_PENDING ⟨2147482, 999999⟩ (by decide)
    (by decide) (by decide) (by decide) (by decide)
  ⟨h.1, h.2.2.1⟩

end PgmRecv
